import Mathlib

/-!
Shallow embedding of the board model of `othellot/models/othello.py` and
verification of the specification's claims about it.

Cells are identified by their integer coordinates `(row, col)`; a board's
mutable data (each grid's disk state, and the two transient sets
`available_grids` and `expected_captives`) is threaded explicitly.
Disk states are the literal strings used by the source:
`"none"`, `"dark"`, `"light"`, `"available"`.
-/

namespace Othellot

/-- The color permutation `{"dark": "light", "light": "dark"}` used by
`suggest_available_grids` and `suggest_expected_captives`. -/
def opponent_of (c : String) : String :=
  if c = "dark" then "light" else if c = "light" then "dark" else "invalid"

/-- The list comprehension
`[(i, j) for i in range(-1, 2) for j in range(-1, 2) if (i != 0) or (j != 0)]`
(appearing in `linking`, `suggest_available_grids` and
`suggest_expected_captives`), written out in its generation order. -/
def neighborhood : List (Int × Int) :=
  [(-1, -1), (-1, 0), (-1, 1), (0, -1), (0, 1), (1, -1), (1, 0), (1, 1)]

/-- The board state: `width`/`height`, each grid's disk state (as a total
function on coordinates; only coordinates in the domain belong to the board),
and the two transient sets of grids, `available_grids` and
`expected_captives`, holding grids by their coordinates. -/
structure Board where
  width : Nat
  height : Nat
  state : Int × Int → String
  available_grids : Finset (Int × Int)
  expected_captives : Finset (Int × Int)

/-- `Board.__init__`: `self.domain = [(i, j) for i in range(height) for j in
range(width)]`. -/
def domainList (height width : Nat) : List (Int × Int) :=
  ((List.range height).flatMap fun i =>
    (List.range width).map fun j => (i, j)).map
      fun q => ((q.1 : Int), (q.2 : Int))

/-- `Board.__init__` with every grid in state `"none"` and both transient
sets empty. -/
def Board.new (width height : Nat) : Board :=
  ⟨width, height, fun _ => "none", ∅, ∅⟩

/-- `Board.is_consist_of`: membership of `(row, col)` in the domain. -/
def Board.is_consist_of (b : Board) (r c : Int) : Prop :=
  (r, c) ∈ domainList b.height b.width

instance (b : Board) (r c : Int) : Decidable (b.is_consist_of r c) := by
  unfold Board.is_consist_of; infer_instance

theorem mem_domainList {h w : Nat} {p : Int × Int} :
    p ∈ domainList h w ↔ 0 ≤ p.1 ∧ p.1 < h ∧ 0 ≤ p.2 ∧ p.2 < w := by
  cases p with
  | mk r c =>
    simp only [domainList, List.mem_map, List.mem_flatMap, List.mem_range]
    constructor
    · rintro ⟨q, ⟨i, hi, j, hj, heq⟩, hq⟩
      subst heq
      have e1 : (i : Int) = r := congrArg Prod.fst hq
      have e2 : (j : Int) = c := congrArg Prod.snd hq
      omega
    · rintro ⟨h1, h2, h3, h4⟩
      refine ⟨(r.toNat, c.toNat), ⟨r.toNat, by omega, c.toNat, by omega, rfl⟩, ?_⟩
      rw [Prod.mk.injEq]
      constructor
      · omega
      · omega

theorem is_consist_of_iff {b : Board} {r c : Int} :
    b.is_consist_of r c ↔ 0 ≤ r ∧ r < b.height ∧ 0 ≤ c ∧ c < b.width := by
  unfold Board.is_consist_of
  exact mem_domainList

/-- The association list built for one grid by `Board.linking` together with
`Grid.add_neighbor`: for each offset `d` of `neighborhood` whose target lies
on the board, an entry keyed by the relative position
`neighbor.pos - grid.pos = d` holding the neighbor grid. -/
def Board.linked_neighbors (b : Board) (p : Int × Int) :
    List ((Int × Int) × (Int × Int)) :=
  neighborhood.filterMap fun d =>
    if b.is_consist_of (p.1 + d.1) (p.2 + d.2) then
      some (d, (p.1 + d.1, p.2 + d.2))
    else none

/-- Dictionary access `grid.neighbors[(i, j)]` on a linked board:
`none` models a `KeyError`. -/
def Board.nb (b : Board) (p d : Int × Int) : Option (Int × Int) :=
  (b.linked_neighbors p).lookup d

theorem lookup_filterMap_ite {g : Int × Int → Int × Int}
    {P : Int × Int → Prop} [DecidablePred P] :
    ∀ (L : List (Int × Int)) (d : Int × Int),
      (L.filterMap fun d' => if P d' then some (d', g d') else none).lookup d
        = if d ∈ L ∧ P d then some (g d) else none := by
  intro L
  induction L with
  | nil => intro d; simp
  | cons a L ih =>
    intro d
    by_cases ha : P a
    · simp only [List.filterMap_cons, ha, if_pos]
      by_cases hda : d = a
      · subst hda
        simp [List.lookup, ha]
      · have : (d == a) = false := by simp [hda]
        simp [List.lookup, this, ih d, hda, List.mem_cons]
    · simp only [List.filterMap_cons, ha, if_neg, not_false_iff]
      by_cases hda : d = a
      · subst hda
        simp [ih d, ha]
      · simp [ih d, List.mem_cons, hda]

theorem nb_eq (b : Board) (p d : Int × Int) :
    b.nb p d =
      if d ∈ neighborhood ∧ b.is_consist_of (p.1 + d.1) (p.2 + d.2) then
        some (p.1 + d.1, p.2 + d.2)
      else none := by
  unfold Board.nb Board.linked_neighbors
  exact lookup_filterMap_ite neighborhood d

/-- A system of grids as built by `Grid.add_neighbor` calls: a finite set of
grids, each with a state and an arbitrary neighbor dictionary. `Board`
instantiates this after `linking`; claim C10 quantifies over arbitrary
instances (cycles, self-references, non-adjacent links included). -/
structure GridSys (ι : Type) [DecidableEq ι] where
  grids : Finset ι
  state : ι → String
  neighbors : ι → (Int × Int) → Option ι

/-- The `while` loop of `Board.calculate_captives`, with explicit fuel.
Per iteration: look up the neighbor in `direction` (a `KeyError` clears the
accumulator and breaks); a neighbor already in `checked_grids` clears the
accumulator and breaks; otherwise the neighbor is added to `checked_grids`,
an opponent neighbor is accumulated and the walk advances, a client neighbor
breaks keeping the accumulator, and any other state clears and breaks. -/
def GridSys.scanAux {ι : Type} [DecidableEq ι] (S : GridSys ι)
    (client opp_color : String) (d : Int × Int) :
    Nat → ι → Finset ι → Finset ι → Option (Finset ι)
  | 0, _, _, _ => none
  | fuel + 1, target, checked, acc =>
    match S.neighbors target d with
    | none => some ∅
    | some nbr =>
      if nbr ∈ checked then some ∅
      else
        let checked' := insert nbr checked
        if S.state nbr = opp_color then
          S.scanAux client opp_color d fuel nbr checked' (insert nbr acc)
        else if S.state nbr = client then some acc
        else some ∅

/-- The grid system of a board after `Board.linking`. -/
def Board.sys (b : Board) : GridSys (Int × Int) :=
  ⟨(domainList b.height b.width).toFinset, b.state, fun p d => b.nb p d⟩

/-- `Board.calculate_captives` on a linked board; the fuel
`grids.card + 1` is proved sufficient below, so `getD ∅` never fires. -/
def Board.calculate_captives (b : Board) (client opp_color : String)
    (p d : Int × Int) : Finset (Int × Int) :=
  (b.sys.scanAux client opp_color d (b.sys.grids.card + 1) p {p} ∅).getD ∅

/-- The failure status string returned by `flip_outflanked_disks`. -/
def status_failed : String := "failed to place the disk"

/-- The success status string returned by `flip_outflanked_disks`. -/
def status_succeeded : String := "succeeded in placing the disk"

/-- `Board.clear_available_grids`: every domain grid in state `"available"`
is reset to `"none"`, and `available_grids` is cleared. -/
def Board.clear_available_grids (b : Board) : Board :=
  { b with
    state := fun q =>
      if b.is_consist_of q.1 q.2 ∧ b.state q = "available" then "none"
      else b.state q,
    available_grids := ∅ }

/-- `Board.clear_expected_captives`. -/
def Board.clear_expected_captives (b : Board) : Board :=
  { b with expected_captives := ∅ }

/-- `Board.flip_outflanked_disks`: fails unless `(row, col)` is on the board
and that grid's state is `"available"`; on success places the client disk on
the target grid, turns every grid of `expected_captives` into the client
color, then runs `clear_available_grids` and `clear_expected_captives`. -/
def Board.flip_outflanked_disks (b : Board) (r c : Int) (client : String) :
    Board × String :=
  if ¬ b.is_consist_of r c then (b, status_failed)
  else if b.state (r, c) ≠ "available" then (b, status_failed)
  else
    let b1 : Board :=
      { b with state := fun q => if q = (r, c) then client else b.state q }
    let b2 : Board :=
      { b1 with state := fun q =>
          if q ∈ b1.expected_captives then client else b1.state q }
    (b2.clear_available_grids.clear_expected_captives, status_succeeded)

/-- The union of the captures calculated in each of the 8 directions, as
accumulated by the `for i, j in neighborhood` loop of
`Board.suggest_expected_captives`. -/
def preview_union (b : Board) (r c : Int) (client : String) :
    Finset (Int × Int) :=
  neighborhood.foldl
    (fun s d =>
      s ∪ b.calculate_captives client (opponent_of client) (r, c) d)
    ∅

/-- `Board.suggest_expected_captives`: returns unchanged if `(row, col)` is
not on the board; otherwise clears `expected_captives` and, when the target
grid's state is `"available"`, refills it with the union of the captures
calculated in each of the 8 directions. -/
def Board.suggest_expected_captives (b : Board) (r c : Int)
    (client : String) : Board :=
  if ¬ b.is_consist_of r c then b
  else
    let b1 : Board := { b with expected_captives := ∅ }
    if b.state (r, c) ≠ "available" then b1
    else
      let caps : Finset (Int × Int) := preview_union b r c client
      { b1 with expected_captives := caps }

/-- The body of the `for i, j in self.domain` loop of
`Board.suggest_available_grids`, acting on one grid `p`: a non-`"none"` grid
is counted and collected iff it is already `"available"`; a `"none"` grid is
marked `"available"`, counted and collected iff some direction's capture
calculation is non-empty. -/
def sag_step (client opp_color : String) (st : Board × Nat)
    (p : Int × Int) : Board × Nat :=
  let b := st.1
  if b.state p ≠ "none" then
    if b.state p = "available" then
      ({ b with available_grids := insert p b.available_grids }, st.2 + 1)
    else st
  else if neighborhood.any
      (fun d => decide (b.calculate_captives client opp_color p d ≠ ∅)) then
    ({ b with
        state := fun q => if q = p then "available" else b.state q,
        available_grids := insert p b.available_grids }, st.2 + 1)
  else st

/-- `Board.suggest_available_grids`: folds the loop body over the domain,
starting from the given board with a count of 0. -/
def Board.suggest_available_grids (b : Board) (client : String) :
    Board × Nat :=
  (domainList b.height b.width).foldl
    (sag_step client (opponent_of client)) (b, 0)

/-- `ceil(self.height / 2) - 1` of `Board.setup`. -/
def Board.center_row (b : Board) : Nat := (b.height + 1) / 2 - 1

/-- `ceil(self.width / 2) - 1` of `Board.setup`. -/
def Board.center_col (b : Board) : Nat := (b.width + 1) / 2 - 1

/-- The block `[(i, j) for i in range(2) for j in range(2)]` of
`Board.setup`, in generation order. -/
def setup_block : List (Nat × Nat) := [(0, 0), (0, 1), (1, 0), (1, 1)]

/-- `Board.setup`: resets every domain grid to `"none"`, then writes the
2 by 2 block at the computed center with `mapping = {0: "light", 1: "dark"}`
keyed by `(i + j) % 2`, silently skipping indices that raise `IndexError`. -/
def Board.setup (b : Board) : Board :=
  let reset : Board :=
    { b with state := fun q =>
        if b.is_consist_of q.1 q.2 then "none" else b.state q }
  setup_block.foldl
    (fun bd ij =>
      if b.center_row + ij.1 < b.height ∧ b.center_col + ij.2 < b.width then
        { bd with state := fun q =>
            if q = (((b.center_row + ij.1 : Nat) : Int),
                    ((b.center_col + ij.2 : Nat) : Int))
            then (if (ij.1 + ij.2) % 2 = 0 then "light" else "dark")
            else bd.state q }
      else bd)
    reset

/-- The legality notion the spec's claims use for a cell: the cell is empty
and rerunning the 8-direction capture scan from it (the way
`suggest_available_grids` does) finds a direction with a non-empty capture
set. -/
def fresh_legal (b : Board) (client : String) (p : Int × Int) : Bool :=
  decide (b.state p = "none") &&
    neighborhood.any
      (fun d =>
        decide (b.calculate_captives client (opponent_of client) p d ≠ ∅))

/-- The directional capture scan exactly as the spec words it (claim C4):
step to the neighbor in `direction`; no neighbor discards the accumulator;
an opponent neighbor is accumulated and the walk advances; a neighbor of the
placing color stops, returning the accumulator; any other state discards the
accumulator. Stated over the linked board, with fuel. -/
def spec_scan_aux (b : Board) (color : String) (d : Int × Int) :
    Nat → (Int × Int) → Finset (Int × Int) → Option (Finset (Int × Int))
  | 0, _, _ => none
  | fuel + 1, cur, acc =>
    match b.nb cur d with
    | none => some ∅
    | some nbr =>
      if b.state nbr = opponent_of color then
        spec_scan_aux b color d fuel nbr (insert nbr acc)
      else if b.state nbr = color then some acc
      else some ∅

/-- The spec's directional capture scan, run with the same fuel as
`Board.calculate_captives`. -/
def spec_directional_scan (b : Board) (color : String) (p d : Int × Int) :
    Finset (Int × Int) :=
  (spec_scan_aux b color d (b.sys.grids.card + 1) p ∅).getD ∅

theorem scanAux_isSome {ι : Type} [DecidableEq ι] (S : GridSys ι)
    (client opp_color : String) (d : Int × Int) (start : ι)
    (hclosed : ∀ i e j, S.neighbors i e = some j → j ∈ S.grids) :
    ∀ (fuel : Nat) (target : ι) (checked acc : Finset ι),
      checked ⊆ insert start S.grids →
      (insert start S.grids).card + 1 ≤ fuel + checked.card →
      (S.scanAux client opp_color d fuel target checked acc).isSome = true := by
  intro fuel
  induction fuel with
  | zero =>
    intro target checked acc hsub hcard
    exfalso
    have := Finset.card_le_card hsub
    omega
  | succ n ih =>
    intro target checked acc hsub hcard
    rw [GridSys.scanAux]
    cases hnb : S.neighbors target d with
    | none => rfl
    | some nbr =>
      simp only []
      by_cases hmem : nbr ∈ checked
      · rw [if_pos hmem]; rfl
      · rw [if_neg hmem]
        by_cases ho : S.state nbr = opp_color
        · rw [if_pos ho]
          apply ih
          · intro x hx
            rcases Finset.mem_insert.mp hx with hx | hx
            · exact hx ▸ Finset.mem_insert_of_mem (hclosed _ _ _ hnb)
            · exact hsub hx
          · rw [Finset.card_insert_of_not_mem hmem]
            omega
        · rw [if_neg ho]
          by_cases hc : S.state nbr = client
          · rw [if_pos hc]; rfl
          · rw [if_neg hc]; rfl

/-- C10: `calculate_captives` terminates for every starting grid, every
client/opponent pair, and every direction, even when the neighbor maps built
via `add_neighbor` form arbitrary graphs (cycles, self-references, or
non-adjacent links): with fuel equal to the number of grids plus one, the
loop always reaches a definite result (the `none` fuel-exhaustion marker is
unreachable), because each continuing iteration moves to a grid not yet in
the checked set, whose growth is bounded by the finite number of grids; and
a revisited grid makes the scan return the empty set. -/
theorem scan_terminates_on_arbitrary_graphs {ι : Type} [DecidableEq ι]
    (S : GridSys ι) (client opp_color : String) (d : Int × Int) (start : ι)
    (hclosed : ∀ i e j, S.neighbors i e = some j → j ∈ S.grids) :
    (S.scanAux client opp_color d (S.grids.card + 1) start {start} ∅).isSome
      = true
    ∧ ∀ (fuel : Nat) (target : ι) (checked acc : Finset ι) (nbr : ι),
        S.neighbors target d = some nbr → nbr ∈ checked →
        S.scanAux client opp_color d (fuel + 1) target checked acc
          = some ∅ := by
  constructor
  · apply scanAux_isSome S client opp_color d start hclosed
    · intro x hx
      rw [Finset.mem_singleton] at hx
      exact hx ▸ Finset.mem_insert_self start S.grids
    · have h1 : (insert start S.grids).card ≤ S.grids.card + 1 :=
        Finset.card_insert_le start S.grids
      rw [Finset.card_singleton]
      omega
  · intro fuel target checked acc nbr hnb hmem
    rw [GridSys.scanAux, hnb]
    simp only []
    rw [if_pos hmem]

theorem nb_mem_grids {b : Board} {p d q : Int × Int}
    (h : b.nb p d = some q) : q ∈ b.sys.grids := by
  rw [nb_eq] at h
  by_cases hc : d ∈ neighborhood ∧ b.is_consist_of (p.1 + d.1) (p.2 + d.2)
  · rw [if_pos hc] at h
    injection h with h
    subst h
    exact List.mem_toFinset.mpr hc.2
  · rw [if_neg hc] at h
    exact absurd h (by simp)

theorem sys_closed (b : Board) :
    ∀ i e j, b.sys.neighbors i e = some j → j ∈ b.sys.grids :=
  fun _ _ _ h => nb_mem_grids h

theorem mem_neighborhood_ne_zero {d : Int × Int} (hd : d ∈ neighborhood) :
    d ≠ (0, 0) := by
  intro heq
  subst heq
  exact absurd hd (by decide)

/-- On a linked board the walk of `calculate_captives` can never revisit a
grid: every checked grid lies a whole number of `direction` steps behind the
current grid, so the `checked_grids` test never fires and the loop agrees
with the plain directional scan of the spec. -/
theorem scanAux_eq_spec (b : Board) (client : String) (d : Int × Int)
    (hd : d ≠ (0, 0)) :
    ∀ (fuel : Nat) (t : Int × Int) (checked acc : Finset (Int × Int)),
      (∀ q ∈ checked, ∃ k : Nat,
          t.1 = q.1 + k * d.1 ∧ t.2 = q.2 + k * d.2) →
      b.sys.scanAux client (opponent_of client) d fuel t checked acc
        = spec_scan_aux b client d fuel t acc := by
  intro fuel
  induction fuel with
  | zero => intros; rfl
  | succ n ih =>
    intro t checked acc hinv
    rw [GridSys.scanAux, spec_scan_aux]
    simp only [Board.sys]
    cases hnb : b.nb t d with
    | none => rfl
    | some nbr =>
      dsimp only
      have hstep : nbr = (t.1 + d.1, t.2 + d.2) := by
        rw [nb_eq] at hnb
        by_cases hc : d ∈ neighborhood ∧ b.is_consist_of (t.1 + d.1) (t.2 + d.2)
        · rw [if_pos hc] at hnb
          injection hnb with hnb
          exact hnb.symm
        · rw [if_neg hc] at hnb
          exact absurd hnb (by simp)
      have hs1 : nbr.1 = t.1 + d.1 := by rw [hstep]
      have hs2 : nbr.2 = t.2 + d.2 := by rw [hstep]
      have hnotmem : nbr ∉ checked := by
        intro hmem
        obtain ⟨k, hk1, hk2⟩ := hinv nbr hmem
        apply hd
        have e1 : ((1 : Int) + k) * d.1 = 0 := by
          rw [add_mul, one_mul]
          linarith [hk1, hs1]
        have e2 : ((1 : Int) + k) * d.2 = 0 := by
          rw [add_mul, one_mul]
          linarith [hk2, hs2]
        have hkpos : (0 : Int) < 1 + k := by positivity
        have z1 : d.1 = 0 := by
          rcases mul_eq_zero.mp e1 with h | h
          · omega
          · exact h
        have z2 : d.2 = 0 := by
          rcases mul_eq_zero.mp e2 with h | h
          · omega
          · exact h
        rw [Prod.ext_iff]
        exact ⟨z1, z2⟩
      rw [if_neg hnotmem]
      by_cases ho : b.state nbr = opponent_of client
      · rw [if_pos ho, if_pos ho]
        apply ih
        intro q hq
        rcases Finset.mem_insert.mp hq with hq | hq
        · subst hq
          exact ⟨0, by simp, by simp⟩
        · obtain ⟨k, hk1, hk2⟩ := hinv q hq
          refine ⟨k + 1, ?_, ?_⟩
          · push_cast
            rw [hs1, hk1]
            ring
          · push_cast
            rw [hs2, hk2]
            ring
      · rw [if_neg ho, if_neg ho]

/-- C4: on every linked board, for every starting cell, placing color and
each of the 8 unit directions, `calculate_captives` (run with the opponent
color, as its callers run it) returns exactly what the spec's directional
scan describes: the run of consecutively adjacent opponent-state cells
terminated by a cell of the placing color (empty when the very first
neighbor already has the placing color), and the empty set whenever the walk
falls off the board or meets a state that is neither the opponent's nor the
placing color first; moreover the scan always reaches a definite result. -/
theorem calculate_captives_matches_spec (b : Board) (client : String)
    (p d : Int × Int) (hd : d ∈ neighborhood) :
    b.calculate_captives client (opponent_of client) p d
      = spec_directional_scan b client p d
    ∧ (spec_scan_aux b client d (b.sys.grids.card + 1) p ∅).isSome = true := by
  have heq :
      b.sys.scanAux client (opponent_of client) d (b.sys.grids.card + 1) p
        {p} ∅
        = spec_scan_aux b client d (b.sys.grids.card + 1) p ∅ := by
    apply scanAux_eq_spec b client d (mem_neighborhood_ne_zero hd)
    intro q hq
    rw [Finset.mem_singleton] at hq
    subst hq
    exact ⟨0, by simp, by simp⟩
  constructor
  · unfold Board.calculate_captives spec_directional_scan
    rw [heq]
  · rw [← heq]
    apply scanAux_isSome b.sys client (opponent_of client) d p (sys_closed b)
    · intro x hx
      rw [Finset.mem_singleton] at hx
      exact hx ▸ Finset.mem_insert_self p b.sys.grids
    · have h1 : (insert p b.sys.grids).card ≤ b.sys.grids.card + 1 :=
        Finset.card_insert_le p b.sys.grids
      rw [Finset.card_singleton]
      omega

theorem keys_of_filterMap (P : (Int × Int) → Prop) [DecidablePred P]
    (g : (Int × Int) → (Int × Int)) :
    ∀ L : List (Int × Int),
      ((L.filterMap fun d => if P d then some (d, g d) else none).map
        Prod.fst) = L.filter (fun d => decide (P d)) := by
  intro L
  induction L with
  | nil => rfl
  | cons a L ih =>
    by_cases ha : P a
    · simp [List.filterMap_cons, List.filter_cons, ha, ih]
    · simp [List.filterMap_cons, List.filter_cons, ha, ih]

theorem neg_mem_neighborhood :
    ∀ d ∈ neighborhood, ((-d.1, -d.2) : Int × Int) ∈ neighborhood := by
  decide

theorem linked_neighbors_keys (b : Board) (p : Int × Int) :
    (b.linked_neighbors p).map Prod.fst
      = neighborhood.filter
          (fun d => decide (b.is_consist_of (p.1 + d.1) (p.2 + d.2))) :=
  keys_of_filterMap _ _ neighborhood

theorem linked_neighbors_length (b : Board) (p : Int × Int) :
    (b.linked_neighbors p).length
      = neighborhood.countP
          (fun d => decide (b.is_consist_of (p.1 + d.1) (p.2 + d.2))) := by
  rw [List.countP_eq_length_filter, ← linked_neighbors_keys, List.length_map]

/-- C8: after `linking`, a grid's neighbor dictionary has exactly one entry
for each of the 8 relative offsets whose target lies on the board, keyed by
the offset and holding the grid at `position + offset`; the adjacency is
symmetric (a neighbor at offset `d` has the original grid as neighbor at
offset `-d`); and for `width, height ≥ 3` a corner grid has exactly 3
neighbors, a non-corner edge grid 5, and an interior grid 8. -/
theorem linking_adjacency (b : Board) (p : Int × Int)
    (hp : b.is_consist_of p.1 p.2) :
    (∀ d : Int × Int,
        b.nb p d =
          if d ∈ neighborhood ∧ b.is_consist_of (p.1 + d.1) (p.2 + d.2) then
            some (p.1 + d.1, p.2 + d.2)
          else none)
    ∧ ((b.linked_neighbors p).map Prod.fst
        = neighborhood.filter
            (fun d => decide (b.is_consist_of (p.1 + d.1) (p.2 + d.2))))
    ∧ (∀ q d : Int × Int, b.nb p d = some q → b.nb q (-d.1, -d.2) = some p)
    ∧ (3 ≤ b.width → 3 ≤ b.height →
        (((p.1 = 0 ∨ p.1 = (b.height : Int) - 1)
            ∧ (p.2 = 0 ∨ p.2 = (b.width : Int) - 1)) →
            (b.linked_neighbors p).length = 3)
        ∧ ((((p.1 = 0 ∨ p.1 = (b.height : Int) - 1)
              ∧ 0 < p.2 ∧ p.2 < (b.width : Int) - 1)
            ∨ ((p.2 = 0 ∨ p.2 = (b.width : Int) - 1)
              ∧ 0 < p.1 ∧ p.1 < (b.height : Int) - 1)) →
            (b.linked_neighbors p).length = 5)
        ∧ ((0 < p.1 ∧ p.1 < (b.height : Int) - 1
              ∧ 0 < p.2 ∧ p.2 < (b.width : Int) - 1) →
            (b.linked_neighbors p).length = 8)) := by
  have hpb := is_consist_of_iff.mp hp
  refine ⟨fun d => nb_eq b p d, linked_neighbors_keys b p, ?_, ?_⟩
  · intro q d h
    rw [nb_eq] at h
    by_cases hc : d ∈ neighborhood ∧ b.is_consist_of (p.1 + d.1) (p.2 + d.2)
    · rw [if_pos hc] at h
      injection h with h
      subst h
      rw [nb_eq]
      dsimp only
      rw [show p.1 + d.1 + -d.1 = p.1 by ring,
          show p.2 + d.2 + -d.2 = p.2 by ring]
      rw [if_pos ⟨neg_mem_neighborhood d hc.1, hp⟩]
    · rw [if_neg hc] at h
      exact absurd h (by simp)
  · intro hw hh
    obtain ⟨r, c⟩ := p
    rw [linked_neighbors_length]
    simp only [neighborhood, List.countP_cons, List.countP_nil,
      decide_eq_true_eq, is_consist_of_iff]
    dsimp only at hpb ⊢
    refine ⟨?_, ?_, ?_⟩
    · rintro ⟨h1 | h1, h2 | h2⟩ <;> subst h1 <;> subst h2 <;>
        norm_num <;> split_ifs <;> omega
    · rintro (⟨h1 | h1, h2, h3⟩ | ⟨h1 | h1, h2, h3⟩) <;> subst h1 <;>
        norm_num <;> split_ifs <;> omega
    · rintro ⟨h1, h2, h3, h4⟩
      split_ifs <;> omega

/-- C7: for `width, height ≥ 2`, `setup` resets every board cell to
`"none"` and then writes the 2 by 2 block with top-left corner
`(ceil(height/2) - 1, ceil(width/2) - 1)`: its top-left and bottom-right
cells become `"light"`, the other two `"dark"`, every other board cell is
left `"none"`; on an 8 by 8 board this puts the four disks at rows 3 to 4,
columns 3 to 4, diagonally paired by color, all other cells `"none"`. -/
theorem setup_places_center_block (b : Board) (hw : 2 ≤ b.width)
    (hh : 2 ≤ b.height) :
    (∀ q : Int × Int,
        b.setup.state q =
          if q = ((b.center_row : Int), (b.center_col : Int))
              ∨ q = ((b.center_row : Int) + 1, (b.center_col : Int) + 1) then
            "light"
          else if q = ((b.center_row : Int), (b.center_col : Int) + 1)
              ∨ q = ((b.center_row : Int) + 1, (b.center_col : Int)) then
            "dark"
          else if b.is_consist_of q.1 q.2 then "none"
          else b.state q)
    ∧ (b.width = 8 → b.height = 8 →
        b.setup.state (3, 3) = "light" ∧ b.setup.state (4, 4) = "light"
        ∧ b.setup.state (3, 4) = "dark" ∧ b.setup.state (4, 3) = "dark"
        ∧ ∀ q : Int × Int, b.is_consist_of q.1 q.2 →
            q ∉ ([((3 : Int), (3 : Int)), (3, 4), (4, 3), (4, 4)] :
              List (Int × Int)) →
            b.setup.state q = "none") := by
  have hcr : b.center_row + 1 < b.height := by
    unfold Board.center_row; omega
  have hcc : b.center_col + 1 < b.width := by
    unfold Board.center_col; omega
  have hmain : ∀ q : Int × Int,
      b.setup.state q =
        if q = ((b.center_row : Int), (b.center_col : Int))
            ∨ q = ((b.center_row : Int) + 1, (b.center_col : Int) + 1) then
          "light"
        else if q = ((b.center_row : Int), (b.center_col : Int) + 1)
            ∨ q = ((b.center_row : Int) + 1, (b.center_col : Int)) then
          "dark"
        else if b.is_consist_of q.1 q.2 then "none"
        else b.state q := by
    intro q
    unfold Board.setup
    simp only [setup_block, List.foldl_cons, List.foldl_nil]
    rw [if_pos (by omega : b.center_row + 0 < b.height
          ∧ b.center_col + 0 < b.width),
        if_pos (by omega : b.center_row + 0 < b.height
          ∧ b.center_col + 1 < b.width),
        if_pos (by omega : b.center_row + 1 < b.height
          ∧ b.center_col + 0 < b.width),
        if_pos (by omega : b.center_row + 1 < b.height
          ∧ b.center_col + 1 < b.width)]
    simp only []
    push_cast
    simp only [add_zero]
    by_cases e11 : q = ((b.center_row : Int) + 1, (b.center_col : Int) + 1)
    · simp [e11, Prod.ext_iff]
    by_cases e10 : q = ((b.center_row : Int) + 1, (b.center_col : Int))
    · have hl : ¬(q = ((b.center_row : Int), (b.center_col : Int))
          ∨ q = ((b.center_row : Int) + 1, (b.center_col : Int) + 1)) := by
        rw [e10]
        simp only [Prod.mk.injEq]
        omega
      rw [if_neg e11, if_pos e10, if_neg hl, if_pos (Or.inr e10)]
    by_cases e01 : q = ((b.center_row : Int), (b.center_col : Int) + 1)
    · have hl : ¬(q = ((b.center_row : Int), (b.center_col : Int))
          ∨ q = ((b.center_row : Int) + 1, (b.center_col : Int) + 1)) := by
        rw [e01]
        simp only [Prod.mk.injEq]
        omega
      rw [if_neg e11, if_neg e10, if_pos e01, if_neg hl, if_pos (Or.inl e01)]
    by_cases e00 : q = ((b.center_row : Int), (b.center_col : Int))
    · rw [if_neg e11, if_neg e10, if_neg e01, if_pos e00,
        if_pos (Or.inl e00)]
    · have hl : ¬(q = ((b.center_row : Int), (b.center_col : Int))
          ∨ q = ((b.center_row : Int) + 1, (b.center_col : Int) + 1)) := by
        rintro (h | h)
        · exact e00 h
        · exact e11 h
      have hd : ¬(q = ((b.center_row : Int), (b.center_col : Int) + 1)
          ∨ q = ((b.center_row : Int) + 1, (b.center_col : Int))) := by
        rintro (h | h)
        · exact e01 h
        · exact e10 h
      rw [if_neg e11, if_neg e10, if_neg e01, if_neg e00, if_neg hl,
        if_neg hd]
  refine ⟨hmain, ?_⟩
  intro w8 h8
  have hcr3 : b.center_row = 3 := by unfold Board.center_row; omega
  have hcc3 : b.center_col = 3 := by unfold Board.center_col; omega
  refine ⟨?_, ?_, ?_, ?_, ?_⟩
  · rw [hmain (3, 3), hcr3, hcc3]
    norm_num
  · rw [hmain (4, 4), hcr3, hcc3]
    norm_num
  · rw [hmain (3, 4), hcr3, hcc3]
    norm_num [Prod.ext_iff]
  · rw [hmain (4, 3), hcr3, hcc3]
    norm_num [Prod.ext_iff]
  · intro q hq hnot
    simp only [List.mem_cons, List.not_mem_nil] at hnot
    push_neg at hnot
    rw [hmain q, hcr3, hcc3]
    rw [if_neg, if_neg, if_pos hq]
    · rintro (h | h)
      · exact hnot.2.1 (by rw [h]; norm_num)
      · exact hnot.2.2.1 (by rw [h]; norm_num)
    · rintro (h | h)
      · exact hnot.1 (by rw [h]; norm_num)
      · exact hnot.2.2.2.1 (by rw [h]; norm_num)

theorem flip_failed_eq (b : Board) (r c : Int) (client : String)
    (h : ¬(b.is_consist_of r c ∧ b.state (r, c) = "available")) :
    b.flip_outflanked_disks r c client = (b, status_failed) := by
  unfold Board.flip_outflanked_disks
  by_cases h1 : b.is_consist_of r c
  · rw [if_neg (not_not_intro h1),
      if_pos (show b.state (r, c) ≠ "available" from fun ha => h ⟨h1, ha⟩)]
  · rw [if_pos h1]

theorem client_color_ne_available {client : String}
    (hc : client = "dark" ∨ client = "light") : client ≠ "available" := by
  rcases hc with h | h <;> subst h <;> decide

theorem flip_success_parts (b : Board) (r c : Int) (client : String)
    (hc : client = "dark" ∨ client = "light")
    (hin : b.is_consist_of r c) (hav : b.state (r, c) = "available") :
    (b.flip_outflanked_disks r c client).2 = status_succeeded
    ∧ (∀ q : Int × Int,
        (b.flip_outflanked_disks r c client).1.state q =
          if q = (r, c) ∨ q ∈ b.expected_captives then client
          else if b.is_consist_of q.1 q.2 ∧ b.state q = "available" then
            "none"
          else b.state q)
    ∧ (b.flip_outflanked_disks r c client).1.width = b.width
    ∧ (b.flip_outflanked_disks r c client).1.height = b.height
    ∧ (b.flip_outflanked_disks r c client).1.available_grids = ∅
    ∧ (b.flip_outflanked_disks r c client).1.expected_captives = ∅ := by
  have hca := client_color_ne_available hc
  unfold Board.flip_outflanked_disks
  rw [if_neg (not_not_intro hin), if_neg (not_not_intro hav)]
  unfold Board.clear_available_grids Board.clear_expected_captives
  refine ⟨rfl, ?_, rfl, rfl, rfl, rfl⟩
  intro q
  dsimp only
  by_cases hm : q ∈ b.expected_captives
  · rw [if_pos hm, if_pos (Or.inr hm), if_neg]
    intro hand
    exact hca hand.2
  · rw [if_neg hm]
    by_cases he : q = (r, c)
    · rw [if_pos he, if_pos (Or.inl he), if_neg]
      intro hand
      exact hca hand.2
    · rw [if_neg he, if_neg (show ¬(q = (r, c) ∨ q ∈ b.expected_captives)
        from fun hor => hor.elim he hm)]
      rfl

/-- C1 (amended): `flip_outflanked_disks` decides legality by the grid's
stored `"available"` flag, not by rerunning the capture scan: whenever the
target is off the board or its state is not `"available"`, it returns the
failure status and the board completely unchanged (every cell's state
identical). -/
theorem flip_fails_iff_not_marked_available (b : Board) (r c : Int)
    (client : String)
    (h : ¬(b.is_consist_of r c ∧ b.state (r, c) = "available")) :
    b.flip_outflanked_disks r c client = (b, status_failed) :=
  flip_failed_eq b r c client h

/-- C2 (amended): whenever `flip_outflanked_disks` succeeds, it sets the
target grid to the client color and flips exactly the grids currently
stored in `expected_captives` to the client color — the stale preview set,
not a freshly recomputed capture set — resets every `"available"` grid to
`"none"`, and clears both transient sets. -/
theorem flip_flips_stored_preview (b : Board) (r c : Int) (client : String)
    (hc : client = "dark" ∨ client = "light")
    (hin : b.is_consist_of r c) (hav : b.state (r, c) = "available") :
    (b.flip_outflanked_disks r c client).2 = status_succeeded
    ∧ (∀ q : Int × Int,
        (b.flip_outflanked_disks r c client).1.state q =
          if q = (r, c) ∨ q ∈ b.expected_captives then client
          else if b.is_consist_of q.1 q.2 ∧ b.state q = "available" then
            "none"
          else b.state q)
    ∧ (b.flip_outflanked_disks r c client).1.available_grids = ∅
    ∧ (b.flip_outflanked_disks r c client).1.expected_captives = ∅ := by
  obtain ⟨h1, h2, _, _, h5, h6⟩ := flip_success_parts b r c client hc hin hav
  exact ⟨h1, h2, h5, h6⟩

/-- C9: `flip_outflanked_disks` succeeds exactly when the target is on the
board with state `"available"`; on success the new state of each grid is:
the client color on the target and on every grid of `expected_captives`,
`"none"` on every other grid that was `"available"`, and the old state
everywhere else; the board's dimensions are unchanged and both
`available_grids` and `expected_captives` end empty. On failure the board
is returned untouched. -/
theorem flip_success_iff_and_frame (b : Board) (r c : Int) (client : String)
    (hc : client = "dark" ∨ client = "light") :
    ((b.flip_outflanked_disks r c client).2 = status_succeeded
      ↔ b.is_consist_of r c ∧ b.state (r, c) = "available")
    ∧ (b.is_consist_of r c → b.state (r, c) = "available" →
        (∀ q : Int × Int,
            (b.flip_outflanked_disks r c client).1.state q =
              if q = (r, c) ∨ q ∈ b.expected_captives then client
              else if b.is_consist_of q.1 q.2 ∧ b.state q = "available" then
                "none"
              else b.state q)
        ∧ (b.flip_outflanked_disks r c client).1.width = b.width
        ∧ (b.flip_outflanked_disks r c client).1.height = b.height
        ∧ (b.flip_outflanked_disks r c client).1.available_grids = ∅
        ∧ (b.flip_outflanked_disks r c client).1.expected_captives = ∅)
    ∧ (¬(b.is_consist_of r c ∧ b.state (r, c) = "available") →
        b.flip_outflanked_disks r c client = (b, status_failed)) := by
  refine ⟨⟨?_, ?_⟩, ?_, fun h => flip_failed_eq b r c client h⟩
  · intro hs
    by_contra h
    simp only [flip_failed_eq b r c client h] at hs
    exact absurd hs (by decide)
  · intro ⟨hin, hav⟩
    exact (flip_success_parts b r c client hc hin hav).1
  · intro hin hav
    exact (flip_success_parts b r c client hc hin hav).2

/-- A 2 by 2 board whose cell (0, 0) carries a stale `"available"` mark:
no direction from it captures anything. -/
def stale_flag_board : Board :=
  { Board.new 2 2 with
    state := fun q => if q = (0, 0) then "available" else "none" }

/-- `stale_flag_board` with a stale preview set naming cell (1, 1). -/
def stale_preview_board : Board :=
  { stale_flag_board with expected_captives := {(1, 1)} }

/-- Counterexample to C1: on `stale_flag_board`, cell (0, 0) is not a legal
destination for dark by the 8-direction capture scan (every direction's
capture set is empty), yet `flip_outflanked_disks` trusts the stale
`"available"` flag: it returns the success status and mutates the board. -/
theorem flip_trusts_stale_flag :
    (∀ d ∈ neighborhood,
        stale_flag_board.calculate_captives "dark" "light" (0, 0) d = ∅)
    ∧ stale_flag_board.state (0, 0) = "available"
    ∧ (stale_flag_board.flip_outflanked_disks 0 0 "dark").2
        = status_succeeded
    ∧ (stale_flag_board.flip_outflanked_disks 0 0 "dark").1.state (0, 0)
        = "dark"
    ∧ stale_flag_board.state (0, 0) ≠ "dark" := by decide

/-- Counterexample to C2: on `stale_preview_board`, a successful
`flip_outflanked_disks` flips cell (1, 1) to dark because it sits in the
stale `expected_captives` set, although the freshly computed union of the
8 directional capture sets from the target is empty. -/
theorem flip_does_not_recompute_captures :
    preview_union stale_preview_board 0 0 "dark" = ∅
    ∧ (stale_preview_board.flip_outflanked_disks 0 0 "dark").2
        = status_succeeded
    ∧ stale_preview_board.state (1, 1) = "none"
    ∧ (stale_preview_board.flip_outflanked_disks 0 0 "dark").1.state (1, 1)
        = "dark" := by decide

/-- A 1 by 1 board with a stale entry in `expected_captives`. -/
def stale_preview_small : Board :=
  { Board.new 1 1 with expected_captives := {(0, 0)} }

/-- A 1-row, 3-column board `dark light none`: cell (0, 2) is a legal
destination for dark by the capture scan, but is not marked
`"available"`. -/
def unmarked_legal_board : Board :=
  { Board.new 3 1 with
    state := fun q =>
      if q = (0, 0) then "dark" else if q = (0, 1) then "light" else "none" }

/-- Counterexample to C5: (a) with out-of-range coordinates,
`suggest_expected_captives` returns without clearing the stale preview set;
(b) on a cell that is a legal destination by the fresh scan but not marked
`"available"`, the preview ends empty instead of holding the union of the
per-direction capture sets. -/
theorem suggest_expected_captives_violations :
    (stale_preview_small.suggest_expected_captives 5 5 "dark").expected_captives
        = {(0, 0)}
    ∧ ¬ stale_preview_small.is_consist_of 5 5
    ∧ fresh_legal unmarked_legal_board "dark" (0, 2) = true
    ∧ preview_union unmarked_legal_board 0 2 "dark" = {(0, 1)}
    ∧ (unmarked_legal_board.suggest_expected_captives 0 2 "dark").expected_captives
        = ∅ := by decide

/-- C5 (amended): `suggest_expected_captives` distinguishes three cases by
the stored state, not by fresh legality: out-of-range coordinates leave the
board (preview included) completely untouched; an in-range grid not marked
`"available"` clears the preview set; an in-range grid marked `"available"`
refills the cleared preview with the union of the 8 per-direction capture
sets. -/
theorem suggest_expected_captives_cases (b : Board) (r c : Int)
    (client : String) (_hc : client = "dark" ∨ client = "light") :
    (¬ b.is_consist_of r c → b.suggest_expected_captives r c client = b)
    ∧ (b.is_consist_of r c → b.state (r, c) ≠ "available" →
        b.suggest_expected_captives r c client
          = { b with expected_captives := ∅ })
    ∧ (b.is_consist_of r c → b.state (r, c) = "available" →
        b.suggest_expected_captives r c client
          = { b with expected_captives := preview_union b r c client }) := by
  refine ⟨?_, ?_, ?_⟩
  · intro h
    unfold Board.suggest_expected_captives
    rw [if_pos h]
  · intro h1 h2
    unfold Board.suggest_expected_captives
    rw [if_neg (not_not_intro h1), if_pos h2]
  · intro h1 h2
    unfold Board.suggest_expected_captives
    rw [if_neg (not_not_intro h1), if_neg (not_not_intro h2)]

/-- Counterexample to C6: immediately after `setup()` on a 1 by 1 board the
single cell is `"light"`, not EMPTY — the in-range part of the 2 by 2 block
is still written, only out-of-range indices are skipped. -/
theorem degenerate_setup_places_disks :
    (Board.new 1 1).setup.state (0, 0) ≠ "none"
    ∧ (Board.new 1 1).setup.state (0, 0) = "light" := by decide

/-- C6 (amended): on a 1 by 1 board `setup` places a single light disk at
(0, 0); on a 1-row, 2-column board it places light at (0, 0) and dark at
(0, 1) (only the out-of-range block cells are silently skipped); and
immediately after `setup`, the legal-destination suggestion is empty for
both colors on both boards (count 0, empty set). -/
theorem degenerate_setup_and_no_moves :
    (Board.new 1 1).setup.state (0, 0) = "light"
    ∧ ((Board.new 2 1).setup.state (0, 0) = "light"
        ∧ (Board.new 2 1).setup.state (0, 1) = "dark")
    ∧ (((Board.new 1 1).setup.suggest_available_grids "dark").1.available_grids
          = ∅
        ∧ ((Board.new 1 1).setup.suggest_available_grids "dark").2 = 0)
    ∧ (((Board.new 1 1).setup.suggest_available_grids "light").1.available_grids
          = ∅
        ∧ ((Board.new 1 1).setup.suggest_available_grids "light").2 = 0)
    ∧ (((Board.new 2 1).setup.suggest_available_grids "dark").1.available_grids
          = ∅
        ∧ ((Board.new 2 1).setup.suggest_available_grids "dark").2 = 0)
    ∧ (((Board.new 2 1).setup.suggest_available_grids "light").1.available_grids
          = ∅
        ∧ ((Board.new 2 1).setup.suggest_available_grids "light").2 = 0) := by
  decide

theorem domainList_nodup (h w : Nat) : (domainList h w).Nodup := by
  unfold domainList
  apply List.Nodup.map
  · intro a b hab
    have h1 := congrArg Prod.fst hab
    have h2 := congrArg Prod.snd hab
    dsimp only at h1 h2
    rcases a with ⟨a1, a2⟩
    rcases b with ⟨b1, b2⟩
    simp only [Prod.mk.injEq]
    constructor
    · omega
    · omega
  · rw [List.nodup_flatMap]
    constructor
    · intro i _
      apply List.Nodup.map
      · intro x y hxy
        exact ((Prod.mk.injEq _ _ _ _).mp hxy).2
      · exact List.nodup_range w
    · refine List.Pairwise.imp ?_ (List.pairwise_lt_range h)
      intro i j hij
      intro a ha haj
      rw [List.mem_map] at ha haj
      obtain ⟨x, _, hx⟩ := ha
      obtain ⟨y, _, hy⟩ := haj
      have e1 : i = a.1 := congrArg Prod.fst hx
      have e2 : j = a.1 := congrArg Prod.fst hy
      omega

theorem scanAux_state_congr (b b' : Board) (client opp_color : String)
    (hW : b'.width = b.width) (hH : b'.height = b.height)
    (hs : ∀ q : Int × Int,
      (b'.state q = client ↔ b.state q = client)
      ∧ (b'.state q = opp_color ↔ b.state q = opp_color))
    (d : Int × Int) :
    ∀ (fuel : Nat) (t : Int × Int) (checked acc : Finset (Int × Int)),
      b'.sys.scanAux client opp_color d fuel t checked acc
        = b.sys.scanAux client opp_color d fuel t checked acc := by
  have hnbe : ∀ p e, b'.nb p e = b.nb p e := by
    intro p e
    rw [nb_eq, nb_eq]
    unfold Board.is_consist_of
    simp only [hW, hH]
  intro fuel
  induction fuel with
  | zero => intros; rfl
  | succ n ih =>
    intro t checked acc
    rw [GridSys.scanAux, GridSys.scanAux]
    simp only [Board.sys]
    rw [hnbe t d]
    cases hnb : b.nb t d with
    | none => rfl
    | some nbr =>
      dsimp only
      by_cases hmem : nbr ∈ checked
      · rw [if_pos hmem, if_pos hmem]
      · rw [if_neg hmem, if_neg hmem]
        by_cases ho : b.state nbr = opp_color
        · rw [if_pos ho, if_pos ((hs nbr).2.mpr ho)]
          exact ih nbr (insert nbr checked) (insert nbr acc)
        · rw [if_neg ho, if_neg (fun hh => ho ((hs nbr).2.mp hh))]
          by_cases hcl : b.state nbr = client
          · rw [if_pos hcl, if_pos ((hs nbr).1.mpr hcl)]
          · rw [if_neg hcl, if_neg (fun hh => hcl ((hs nbr).1.mp hh))]

theorem calculate_captives_congr (b b' : Board) (client opp_color : String)
    (hW : b'.width = b.width) (hH : b'.height = b.height)
    (hs : ∀ q : Int × Int,
      (b'.state q = client ↔ b.state q = client)
      ∧ (b'.state q = opp_color ↔ b.state q = opp_color))
    (p d : Int × Int) :
    b'.calculate_captives client opp_color p d
      = b.calculate_captives client opp_color p d := by
  unfold Board.calculate_captives
  have hgr : b'.sys.grids = b.sys.grids := by
    simp only [Board.sys]
    rw [hW, hH]
  rw [hgr, scanAux_state_congr b b' client opp_color hW hH hs d]

theorem sag_fold_available_grids (b : Board) (client : String)
    (hc : client = "dark" ∨ client = "light") :
    ∀ (L : List (Int × Int)), L.Nodup →
      (∀ p ∈ L, b.state p ≠ "available") →
      ∀ (b' : Board) (n : Nat),
        b'.width = b.width → b'.height = b.height →
        (∀ q : Int × Int, b'.state q = b.state q
            ∨ (b.state q = "none" ∧ b'.state q = "available")) →
        (∀ p ∈ L, b'.state p = b.state p) →
        (L.foldl (sag_step client (opponent_of client))
            (b', n)).1.available_grids
          = b'.available_grids ∪ (L.filter (fresh_legal b client)).toFinset := by
  intro L
  induction L with
  | nil =>
    intro _ _ b' n _ _ _ _
    simp
  | cons p L ih =>
    intro hnd hnav b' n hW hH hstates hunv
    obtain ⟨hpL, hndL⟩ := List.nodup_cons.mp hnd
    have hnavL : ∀ q ∈ L, b.state q ≠ "available" :=
      fun q hq => hnav q (List.mem_cons_of_mem p hq)
    have hunvL : ∀ q ∈ L, b'.state q = b.state q :=
      fun q hq => hunv q (List.mem_cons_of_mem p hq)
    have hpstate : b'.state p = b.state p := hunv p (List.mem_cons_self p L)
    have hiff : ∀ q : Int × Int,
        (b'.state q = client ↔ b.state q = client)
        ∧ (b'.state q = opponent_of client ↔ b.state q = opponent_of client) := by
      intro q
      rcases hstates q with h | ⟨h1, h2⟩
      · rw [h]
        exact ⟨Iff.rfl, Iff.rfl⟩
      · rw [h1, h2]
        rcases hc with h | h <;> subst h <;> exact ⟨by decide, by decide⟩
    have hscan : ∀ d, b'.calculate_captives client (opponent_of client) p d
        = b.calculate_captives client (opponent_of client) p d :=
      fun d =>
        calculate_captives_congr b b' client (opponent_of client) hW hH hiff
          p d
    have hfn : (fun d => decide
          (b'.calculate_captives client (opponent_of client) p d ≠ ∅))
        = fun d => decide
          (b.calculate_captives client (opponent_of client) p d ≠ ∅) := by
      funext d
      rw [hscan d]
    rw [List.foldl_cons]
    by_cases h0 : b.state p = "none"
    · have hcond : ¬(b'.state p ≠ "none") := by
        rw [hpstate, h0]
        simp
      by_cases hlegal : neighborhood.any (fun d => decide
          (b.calculate_captives client (opponent_of client) p d ≠ ∅)) = true
      · set b2 : Board :=
          { b' with
            state := fun q => if q = p then "available" else b'.state q,
            available_grids := insert p b'.available_grids } with hb2
        have hstep : sag_step client (opponent_of client) (b', n) p
            = (b2, n + 1) := by
          unfold sag_step
          dsimp only
          rw [if_neg hcond, hfn, if_pos hlegal]
        have h2states : ∀ q : Int × Int, b2.state q = b.state q
            ∨ (b.state q = "none" ∧ b2.state q = "available") := by
          intro q
          rw [hb2]
          dsimp only
          by_cases hq : q = p
          · subst hq
            rw [if_pos rfl]
            exact Or.inr ⟨h0, rfl⟩
          · rw [if_neg hq]
            exact hstates q
        have h2unv : ∀ q ∈ L, b2.state q = b.state q := by
          intro q hq
          rw [hb2]
          dsimp only
          rw [if_neg (show ¬ q = p from fun e => hpL (by rw [← e]; exact hq))]
          exact hunvL q hq
        rw [hstep]
        rw [ih hndL hnavL b2 (n + 1) hW hH h2states h2unv]
        rw [hb2]
        dsimp only
        rw [List.filter_cons,
          if_pos (show fresh_legal b client p = true by
            unfold fresh_legal
            rw [Bool.and_eq_true, decide_eq_true_eq]
            exact ⟨h0, hlegal⟩)]
        rw [List.toFinset_cons, Finset.insert_union, Finset.union_insert]
      · have hstep : sag_step client (opponent_of client) (b', n) p
            = (b', n) := by
          unfold sag_step
          dsimp only
          rw [if_neg hcond, hfn, if_neg hlegal]
        rw [hstep, ih hndL hnavL b' n hW hH hstates hunvL]
        rw [List.filter_cons,
          if_neg (show ¬ fresh_legal b client p = true from fun hf =>
            hlegal (((Bool.and_eq_true _ _).mp hf).2))]
    · have hcond : b'.state p ≠ "none" := by
        rw [hpstate]
        exact h0
      have hnavp : ¬(b'.state p = "available") := by
        rw [hpstate]
        exact hnav p (List.mem_cons_self p L)
      have hstep : sag_step client (opponent_of client) (b', n) p
          = (b', n) := by
        unfold sag_step
        dsimp only
        rw [if_pos hcond, if_neg hnavp]
      rw [hstep, ih hndL hnavL b' n hW hH hstates hunvL]
      rw [List.filter_cons,
        if_neg (show ¬ fresh_legal b client p = true from fun hf =>
          h0 (of_decide_eq_true ((Bool.and_eq_true _ _).mp hf).1))]

/-- C3 (amended): `suggest_available_grids` only adds to `available_grids`
and keeps already-marked grids without rescanning them, so freshness holds
only from a clean state: when no grid is marked `"available"` and the set
is empty beforehand, after the call the set contains exactly those `"none"`
cells from which at least one of the 8 directional capture scans yields a
non-empty set. -/
theorem suggest_available_grids_fresh (b : Board) (client : String)
    (hc : client = "dark" ∨ client = "light")
    (hset : b.available_grids = ∅)
    (hnav : ∀ p ∈ domainList b.height b.width, b.state p ≠ "available") :
    (b.suggest_available_grids client).1.available_grids
      = ((domainList b.height b.width).filter
          (fresh_legal b client)).toFinset := by
  unfold Board.suggest_available_grids
  rw [sag_fold_available_grids b client hc (domainList b.height b.width)
    (domainList_nodup b.height b.width) hnav b 0 rfl rfl
    (fun _ => Or.inl rfl) (fun _ _ => rfl), hset]
  simp

/-- A 1 by 1 board whose `available_grids` set holds a stale entry that is
not even a coordinate of the board. -/
def stale_set_board : Board :=
  { Board.new 1 1 with available_grids := {(5, 5)} }

/-- Counterexample to C3: `suggest_available_grids` does not recompute the
legal-destination set fresh. On `stale_flag_board`, cell (0, 0) is kept and
collected purely because of its stale `"available"` mark although it is not
an empty cell and no direction captures from it (no cell is freshly legal);
and on `stale_set_board` the stale set contents survive the call. -/
theorem suggest_keeps_stale_marks :
    (stale_flag_board.suggest_available_grids "dark").1.available_grids
        = {(0, 0)}
    ∧ stale_flag_board.state (0, 0) ≠ "none"
    ∧ (∀ d ∈ neighborhood,
        stale_flag_board.calculate_captives "dark" "light" (0, 0) d = ∅)
    ∧ (∀ p ∈ domainList 2 2, fresh_legal stale_flag_board "dark" p = false)
    ∧ (stale_set_board.suggest_available_grids "dark").1.available_grids
        = {(5, 5)} := by decide

theorem flip_fails_iff_not_marked_available_witness :
    (Board.new 1 1).flip_outflanked_disks 0 0 "dark"
      = (Board.new 1 1, status_failed) :=
  flip_fails_iff_not_marked_available (Board.new 1 1) 0 0 "dark" (by decide)

theorem flip_flips_stored_preview_witness :
    (stale_preview_board.flip_outflanked_disks 0 0 "dark").1.state (1, 1)
      = "dark" :=
  ((flip_flips_stored_preview stale_preview_board 0 0 "dark" (Or.inl rfl)
    (by decide) (by decide)).2.1 (1, 1)).trans (by decide)

theorem suggest_available_grids_fresh_witness :
    (unmarked_legal_board.suggest_available_grids "dark").1.available_grids
      = {(0, 2)} :=
  (suggest_available_grids_fresh unmarked_legal_board "dark" (Or.inl rfl)
    rfl (by decide)).trans (by decide)

theorem calculate_captives_matches_spec_witness :
    unmarked_legal_board.calculate_captives "dark" (opponent_of "dark")
        (0, 2) (0, -1)
      = spec_directional_scan unmarked_legal_board "dark" (0, 2) (0, -1) :=
  (calculate_captives_matches_spec unmarked_legal_board "dark" (0, 2)
    (0, -1) (by decide)).1

theorem suggest_expected_captives_cases_witness :
    stale_preview_small.suggest_expected_captives 5 5 "dark"
      = stale_preview_small :=
  (suggest_expected_captives_cases stale_preview_small 5 5 "dark"
    (Or.inl rfl)).1 (by decide)

theorem setup_places_center_block_witness :
    (Board.new 8 8).setup.state (3, 3) = "light" :=
  ((setup_places_center_block (Board.new 8 8) (by decide) (by decide)).2
    rfl rfl).1

theorem linking_adjacency_witness :
    ((Board.new 3 3).linked_neighbors (0, 0)).length = 3 :=
  ((linking_adjacency (Board.new 3 3) (0, 0) (by decide)).2.2.2 (by decide)
    (by decide)).1 (by decide)

theorem flip_success_iff_and_frame_witness :
    (stale_flag_board.flip_outflanked_disks 0 0 "dark").2
      = status_succeeded :=
  ((flip_success_iff_and_frame stale_flag_board 0 0 "dark"
    (Or.inl rfl)).1).mpr ⟨by decide, by decide⟩

/-- A one-grid system that is its own neighbor in every direction: the
smallest cyclic neighbor graph `add_neighbor` can build. -/
def cyclic_one : GridSys (Fin 1) :=
  ⟨Finset.univ, fun _ => "none", fun _ _ => some 0⟩

theorem scan_terminates_on_arbitrary_graphs_witness :
    (cyclic_one.scanAux "dark" "light" (0, 0) (cyclic_one.grids.card + 1)
      0 {0} ∅).isSome = true :=
  (scan_terminates_on_arbitrary_graphs cyclic_one "dark" "light" (0, 0) 0
    (fun _ _ j _ => Finset.mem_univ j)).1

end Othellot
